import Mathlib

/-
Verification of the transaction composition engine of `pycardano/wallet.py`
(astrojarred/pycardano).  The Python source is shallowly embedded: Python
`str` values become lists of Unicode code points, Python `dict`s become
insertion-ordered association lists with last-write-wins assignment, Python
numbers become a tagged int/float tower (float values abstracted as exact
rationals; only the int/float tag is load-bearing for the claims below),
and Python exceptions become `Except` errors.
-/

set_option autoImplicit false

namespace PyCardano

/-! ## Python primitives -/

/-- A Python `str`, modelled as its sequence of Unicode code points.
Python's `len` on a string counts code points, not UTF-8 bytes. -/
abbrev PyStr : Type := List Nat

/-- Injection of `Except` into a sum, used to derive decidable equality. -/
def exceptToSum {ε α : Type} : Except ε α → ε ⊕ α
  | .error e => .inl e
  | .ok a => .inr a

instance {ε α : Type} [DecidableEq ε] [DecidableEq α] : DecidableEq (Except ε α) :=
  fun a b =>
    decidable_of_iff (exceptToSum a = exceptToSum b)
      (by cases a <;> cases b <;> simp [exceptToSum])

/-- Number of bytes of a single code point in UTF-8. -/
def utf8Size (c : Nat) : Nat :=
  if c < 0x80 then 1 else if c < 0x800 then 2 else if c < 0x10000 then 3 else 4

/-- Number of bytes of the UTF-8 encoding of a string (`len(s.encode("utf-8"))`
in Python), as opposed to `List.length`, which is Python's `len(s)`. -/
def utf8Len (s : PyStr) : Nat :=
  (s.map utf8Size).sum

/-- Length of the decimal representation of a natural number. -/
def decLen (n : Nat) : Nat :=
  Nat.log 10 n + 1

/-- Length of `str(n)` for a Python integer `n` (a possible minus sign plus
the decimal digits). -/
def intStrLen (n : Int) : Nat :=
  if n < 0 then decLen n.natAbs + 1 else decLen n.natAbs

/-- Python `d[k] = v` on an insertion-ordered association list: overwrite in
place if the key is present, append otherwise. -/
def dictSet {κ ν : Type} [DecidableEq κ] : List (κ × ν) → κ → ν → List (κ × ν)
  | [], k, v => [(k, v)]
  | p :: rest, k, v => if p.1 = k then (p.1, v) :: rest else p :: dictSet rest k v

/-- Python `d.get(k)` on an association list. -/
def dictGet? {κ ν : Type} [DecidableEq κ] : List (κ × ν) → κ → Option ν
  | [], _ => none
  | p :: rest, k => if p.1 = k then some p.2 else dictGet? rest k

/-- The keys of an association list, in insertion order. -/
def dkeys {κ ν : Type} (d : List (κ × ν)) : List κ :=
  d.map Prod.fst

/-! ## Amount / Lovelace / Ada (`wallet.py` lines 67-285)

Python's numeric tower: a value is an `int` or a `float`.  Exact float
rounding is not needed by the subtype-preservation claim, so float values
are carried as exact rationals; the int/float *tag* follows Python's typing
rules exactly (`int / int` is a `float`, `int + int` is an `int`, ...). -/

/-- A Python number: an `int` or a `float`. -/
inductive PyNum where
  | int (n : Int)
  | float (q : ℚ)
deriving DecidableEq

/-- Errors raised by the arithmetic fragment. -/
inductive PyErr where
  | typeError
  | zeroDivision
deriving DecidableEq

/-- The rational value of a Python number. -/
def PyNum.toQ : PyNum → ℚ
  | .int n => (n : ℚ)
  | .float q => q

/-- Python `int(x)`: the identity on ints, truncation toward zero on floats. -/
def PyNum.toInt : PyNum → Int
  | .int n => n
  | .float q => q.num / q.den

/-- Python `+` on numbers: int if both operands are ints, float otherwise. -/
def pyAdd : PyNum → PyNum → PyNum
  | .int a, .int b => .int (a + b)
  | a, b => .float (a.toQ + b.toQ)

/-- Python `-` on numbers. -/
def pySub : PyNum → PyNum → PyNum
  | .int a, .int b => .int (a - b)
  | a, b => .float (a.toQ - b.toQ)

/-- Python `*` on numbers. -/
def pyMul : PyNum → PyNum → PyNum
  | .int a, .int b => .int (a * b)
  | a, b => .float (a.toQ * b.toQ)

/-- Python `/` on numbers: always a float, and a `ZeroDivisionError` on a
zero divisor. -/
def pyDiv (a b : PyNum) : Except PyErr PyNum :=
  if b.toQ = 0 then .error .zeroDivision else .ok (.float (a.toQ / b.toQ))

/-- Python `//` on numbers: floor division, int on two ints, float otherwise. -/
def pyFloorDiv (a b : PyNum) : Except PyErr PyNum :=
  if b.toQ = 0 then .error .zeroDivision
  else
    match a, b with
    | .int x, .int y => .ok (.int (Int.fdiv x y))
    | x, y => .ok (.float ((⌊x.toQ / y.toQ⌋ : Int) : ℚ))

/-- Python unary `-`. -/
def pyNeg : PyNum → PyNum
  | .int n => .int (-n)
  | .float q => .float (-q)

/-- Python `abs`. -/
def pyAbs : PyNum → PyNum
  | .int n => .int |n|
  | .float q => .float |q|

/-- Python `round(x)` with no digit count: always returns an `int`,
rounding halves to even. -/
def pyRound : PyNum → Int
  | .int n => n
  | .float q =>
    if 2 * (q - (⌊q⌋ : ℚ)) = 1 then (if ⌊q⌋ % 2 = 0 then ⌊q⌋ else ⌊q⌋ + 1)
    else round q

/-- The concrete `Amount` subclass of a value: `Lovelace` or `Ada`.  For the
two subclasses in the source, `self.__class__` and `self._amount_type`
coincide. -/
inductive AmountTy where
  | lovelace
  | ada
deriving DecidableEq

/-- An `Amount` instance: its concrete class and its `_amount` field.
`Lovelace.__init__` (lines 248-256) guarantees `_amount` is an `int` for
`lovelace`-tagged values; `Ada` accepts both. -/
structure AmountV where
  ty : AmountTy
  amt : PyNum
deriving DecidableEq

/-- The `_lovelace` field computed by `Amount.__post_init__` (lines 74-83):
`int(self._amount)` for lovelace, `int(self._amount * 1000000)` for ada. -/
def AmountV.lovelaceField (a : AmountV) : Int :=
  match a.ty with
  | .lovelace => a.amt.toInt
  | .ada => (pyMul a.amt (.int 1000000)).toInt

/-- The `_ada` field computed by `Amount.__post_init__`:
`self._amount / 1000000` (a float) for lovelace, `self._amount` for ada. -/
def AmountV.adaField (a : AmountV) : PyNum :=
  match a.ty with
  | .lovelace => .float (a.amt.toQ / 1000000)
  | .ada => a.amt

/-- The `Amount.amount` property (lines 85-92): the lovelace view for
lovelace-tagged values, the ada view otherwise. -/
def AmountV.amount (a : AmountV) : PyNum :=
  match a.ty with
  | .lovelace => .int a.lovelaceField
  | .ada => a.adaField

/-- The `other[self._amount_type]` lookup into `_amount_dict` (line 83/164-165). -/
def AmountV.dictLookup (a : AmountV) : AmountTy → PyNum
  | .lovelace => .int a.lovelaceField
  | .ada => a.adaField

/-- The constructor dispatch `self.__class__(x)` of the concrete subclass.
`Lovelace.__init__` raises `TypeError` unless the argument is an `int`
(lines 251-256); `Ada.__init__` accepts ints and floats (lines 273-274). -/
def mkAmount (ty : AmountTy) (x : PyNum) : Except PyErr AmountV :=
  match ty, x with
  | .lovelace, .int n => .ok ⟨.lovelace, .int n⟩
  | .lovelace, .float _ => .error .typeError
  | .ada, x => .ok ⟨.ada, x⟩

/-- The right-hand operand of an arithmetic dunder: a bare number, another
`Amount`, or a value of any other type (which raises `TypeError`). -/
inductive Operand where
  | num (x : PyNum)
  | amt (a : AmountV)
  | other
deriving DecidableEq

/-- The binary operations of `Amount` (lines 167-236), including the
reflected forms. -/
inductive BinOpK where
  | add | sub | mul | truediv | floordiv
  | radd | rsub | rmul | rtruediv | rfloordiv
deriving DecidableEq

/-- The unary operations of `Amount` (lines 238-245). -/
inductive UnOpK where
  | neg | absK | roundK
deriving DecidableEq

/-- The numeric core of one binary dunder: Python arithmetic on
`self.amount` and the resolved right-hand number.  Reflected forms swap the
operand order exactly as lines 176-236 do. -/
def binOpNum (k : BinOpK) (a x : PyNum) : Except PyErr PyNum :=
  match k with
  | .add => .ok (pyAdd a x)
  | .sub => .ok (pySub a x)
  | .mul => .ok (pyMul a x)
  | .truediv => pyDiv a x
  | .floordiv => pyFloorDiv a x
  | .radd => .ok (pyAdd a x)
  | .rsub => .ok (pySub x a)
  | .rmul => .ok (pyMul a x)
  | .rtruediv => pyDiv x a
  | .rfloordiv => pyFloorDiv x a

/-- Propagate an arithmetic error, or rebuild the result through
`self.__class__(...)` — the tail of every dunder body. -/
def finishAmount (ty : AmountTy) (x : Except PyErr PyNum) : Except PyErr AmountV :=
  match x with
  | .error e => .error e
  | .ok y => mkAmount ty y

/-- One binary arithmetic dunder of `Amount` (lines 167-236): resolve the
operand (bare number as-is, `Amount` through `other[self._amount_type]` —
accepted only by the non-reflected forms, lines 176-180, 190-194, 204-208,
226-236 — anything else a `TypeError`), apply the Python arithmetic, and
rebuild via `self.__class__(...)`. -/
def applyBin (k : BinOpK) (self : AmountV) (rhs : Operand) : Except PyErr AmountV :=
  match rhs with
  | .num x => finishAmount self.ty (binOpNum k self.amount x)
  | .amt o =>
    match k with
    | .add | .sub | .mul | .truediv | .floordiv =>
      finishAmount self.ty (binOpNum k self.amount (o.dictLookup self.ty))
    | _ => .error .typeError
  | .other => .error .typeError

/-- One unary dunder of `Amount` (lines 238-245): apply the Python
operation to `self.amount` and rebuild via `self.__class__(...)`. -/
def applyUn (k : UnOpK) (self : AmountV) : Except PyErr AmountV :=
  match k with
  | .neg => mkAmount self.ty (pyNeg self.amount)
  | .absK => mkAmount self.ty (pyAbs self.amount)
  | .roundK => mkAmount self.ty (.int (pyRound self.amount))

/-! ## Metadata values and validation (`wallet.py` lines 1904-1954)

A Python metadata value is a string, an integer, a list, or a dict.  Dict
keys must be hashable, so they are scalars (strings or ints) in practice.
Floats and byte strings are not used by any claim and are omitted. -/

/-- A hashable Python scalar usable as a metadata dict key. -/
inductive MetaKey where
  | ks (v : PyStr)
  | ki (n : Int)
deriving DecidableEq

mutual

/-- A Python metadata value. -/
inductive Meta where
  | s (v : PyStr)
  | i (n : Int)
  | l (items : MetaList)
  | d (entries : MetaDict)

/-- A Python list of metadata values. -/
inductive MetaList where
  | nil
  | cons (hd : Meta) (tl : MetaList)

/-- A Python dict of metadata entries, in insertion order. -/
inductive MetaDict where
  | nil
  | cons (k : MetaKey) (v : Meta) (tl : MetaDict)

end

/-- Length of `str(k)` for a dict key: a string's own code-point count, or
the decimal length of an int. -/
def metaKeyStrLen : MetaKey → Nat
  | .ks v => v.length
  | .ki n => intStrLen n

/-- Length of `repr(k)` for a dict key. -/
def metaKeyReprLen (k : MetaKey) : Nat :=
  match k with
  | .ks v => v.length + 2
  | .ki n => intStrLen n

mutual

/-- Length of `str(x)` for a metadata value.  A string at this position is
shown without quotes; containers are shown with brackets, separators, and
their elements in `repr` form.  (Escape expansion inside `repr` can only
lengthen the result and is elided.) -/
def pyStrLen : Meta → Nat
  | .s v => v.length
  | .i n => intStrLen n
  | .l items => 2 + reprLenList items
  | .d entries => 2 + reprLenDict entries

/-- Length of `repr(x)` for a metadata value appearing inside a container:
strings gain two quote characters; everything else reads as `str(x)`. -/
def reprLen : Meta → Nat
  | .s v => v.length + 2
  | .i n => intStrLen n
  | .l items => 2 + reprLenList items
  | .d entries => 2 + reprLenDict entries

/-- Total length of the comma-separated `repr`s of the items of a list. -/
def reprLenList : MetaList → Nat
  | .nil => 0
  | .cons hd .nil => reprLen hd
  | .cons hd tl => reprLen hd + 2 + reprLenList tl

/-- Total length of the comma-separated `repr(k): repr(v)` renderings of
the entries of a dict. -/
def reprLenDict : MetaDict → Nat
  | .nil => 0
  | .cons k v .nil => metaKeyReprLen k + 2 + reprLen v
  | .cons k v tl => metaKeyReprLen k + 2 + reprLen v + 2 + reprLenDict tl

end

/-- The one exception class of the metadata fragment,
`MetadataFormattingException` (named `MetadataFieldTooLong` in the spec's
taxonomy for the length checks embedded here). -/
inductive MetaErr where
  | fieldTooLong
deriving DecidableEq

mutual

/-- The module-level `check_metadata` (lines 1904-1954) with the default
`top_level=False` (the composer's call at line 1522; the `json.dumps`
serializability probe guarded by `top_level` is outside its fragment).
Dict keys and scalar dict values are length-checked via `len(str(_))`,
dict/list values recurse, and list items are length-checked via
`len(str(item))` without recursion. -/
def check_metadata : Meta → Except MetaErr Unit
  | .d entries => checkDict entries
  | .l items => checkList items
  | .s v => if v.length > 64 then .error .fieldTooLong else .ok ()
  | .i _ => .ok ()

/-- The `for key, value in to_check.items()` loop of `check_metadata`
(lines 1917-1932): a raised exception propagates, aborting the loop. -/
def checkDict : MetaDict → Except MetaErr Unit
  | .nil => .ok ()
  | .cons k v tl =>
    if metaKeyStrLen k > 64 then .error .fieldTooLong
    else
      match v with
      | .d es =>
        match checkDict es with
        | .error e => .error e
        | .ok _ => checkDict tl
      | .l is =>
        match checkList is with
        | .error e => .error e
        | .ok _ => checkDict tl
      | v => if pyStrLen v > 64 then .error .fieldTooLong else checkDict tl

/-- The `for item in to_check` loop of `check_metadata` (lines 1936-1941):
each item is length-checked through its `str` form, with no recursion. -/
def checkList : MetaList → Except MetaErr Unit
  | .nil => .ok ()
  | .cons hd tl =>
    if pyStrLen hd > 64 then .error .fieldTooLong else checkList tl

end

/-- Whether a dict key is a string of more than 64 UTF-8 bytes. -/
def metaKeyLongByte : MetaKey → Bool
  | .ks s => utf8Len s > 64
  | .ki _ => false

/-- Whether a dict key is a string of more than 64 code points. -/
def metaKeyLongChar : MetaKey → Bool
  | .ks s => s.length > 64
  | .ki _ => false

mutual

/-- Whether a metadata value contains, at any nesting depth, a leaf string
(as a dict key, a dict value, a list item, or the value itself) whose
UTF-8 encoding is longer than 64 bytes. -/
def longByteLeaf : Meta → Bool
  | .s v => utf8Len v > 64
  | .i _ => false
  | .l items => longByteLeafList items
  | .d entries => longByteLeafDict entries

/-- List version of `longByteLeaf`. -/
def longByteLeafList : MetaList → Bool
  | .nil => false
  | .cons hd tl => longByteLeaf hd || longByteLeafList tl

/-- Dict version of `longByteLeaf`. -/
def longByteLeafDict : MetaDict → Bool
  | .nil => false
  | .cons k v tl => metaKeyLongByte k || longByteLeaf v || longByteLeafDict tl

end

mutual

/-- Whether a metadata value contains, at any nesting depth, a leaf string
(as a dict key, a dict value, a list item, or the value itself) with more
than 64 code points — the measure `len` actually applies. -/
def longCharLeaf : Meta → Bool
  | .s v => v.length > 64
  | .i _ => false
  | .l items => longCharLeafList items
  | .d entries => longCharLeafDict entries

/-- List version of `longCharLeaf`. -/
def longCharLeafList : MetaList → Bool
  | .nil => false
  | .cons hd tl => longCharLeaf hd || longCharLeafList tl

/-- Dict version of `longCharLeaf`. -/
def longCharLeafDict : MetaDict → Bool
  | .nil => false
  | .cons k v tl => metaKeyLongChar k || longCharLeaf v || longCharLeafDict tl

end

/-! ## Message chunking (`format_message`, `wallet.py` lines 1877-1901) -/

/-- The slice comprehension `[message[i : i + 64] for i in range(0, len(message), 64)]`
(line 1888): `range(0, L, 64)` has `ceil(L / 64)` elements `64 * i`, and the
slice `message[j : j + 64]` is `(drop j).take 64`. -/
def pyChunks (s : PyStr) : List PyStr :=
  (List.range ((s.length + 63) / 64)).map (fun i => (s.drop (64 * i)).take 64)

/-- The argument of `format_message`: a single string or a list of strings. -/
inductive MsgInput where
  | one (s : PyStr)
  | many (lines : List PyStr)

/-- The validation loop of `format_message` (lines 1890-1899): every line
must be at most 64 characters.  (The `isinstance(line, str)` check is
vacuous here since lines are strings by construction.) -/
def checkLines : List PyStr → Except MetaErr Unit
  | [] => .ok ()
  | line :: rest =>
    if line.length > 64 then .error .fieldTooLong else checkLines rest

/-- Embeds `format_message` (lines 1877-1901): chunk a single string into 64-code-
point slices, validate every line, and return the value stored under the
`"msg"` key of the CIP-20 document. -/
def format_message : MsgInput → Except MetaErr (List PyStr)
  | .one s =>
    match checkLines (pyChunks s) with
    | .error e => .error e
    | .ok _ => .ok (pyChunks s)
  | .many ls =>
    match checkLines ls with
    | .error e => .error e
    | .ok _ => .ok ls

/-! ## Tokens and mint aggregation (`Wallet.transact`, lines 1464-1517)

A `Token` carries a policy and a signed integer amount.  The policy is
identified by its script hash (`token.policy.hash()` for a `NativeScript`,
`ScriptHash.from_primitive(token.policy_id)` for a `TokenPolicy` — both the
same hash value), abstracted as a `Nat` id.  `AssetName(token.bytes_name)`
keys assets by the UTF-8 encoding of `token.name`; as that encoding is
injective, assets are keyed by the code-point string directly. -/

/-- A `Token` (lines 469-499): resolved policy hash, name, signed amount. -/
structure Token where
  policyId : Nat
  name : PyStr
  amount : Int
deriving DecidableEq

/-- One iteration of the `for token in mint_list` loop (lines 1468-1492):
ensure an inner dict exists for the policy, then `mints_dict[policy_hash][token.name] = token`.
(`if not mints_dict.get(policy_hash)` treats a missing key and an empty
inner dict alike; an inner dict is never empty once created.) -/
def mintsDictStep (d : List (Nat × List (PyStr × Token))) (t : Token) :
    List (Nat × List (PyStr × Token)) :=
  dictSet d t.policyId (dictSet ((dictGet? d t.policyId).getD []) t.name t)

/-- The `mints_dict` built from the mint list (lines 1465-1492). -/
def mintsDict (l : List Token) : List (Nat × List (PyStr × Token)) :=
  l.foldl mintsDictStep []

/-- The `assets` dict of one policy (lines 1499-1502): iterate the inner
dict's values and assign `assets[name] = int(token.amount)`. -/
def assetsOf (inner : List (PyStr × Token)) : List (PyStr × Int) :=
  inner.foldl (fun a p => dictSet a p.2.name p.2.amount) []

/-- The `mint_assets` dict of one policy (lines 1499-1505): only strictly
positive amounts are kept. -/
def mintAssetsOf (inner : List (PyStr × Token)) : List (PyStr × Int) :=
  inner.foldl (fun a p => if p.2.amount > 0 then dictSet a p.2.name p.2.amount else a) []

/-- A `MultiAsset`: policy hash to asset name to amount. -/
abbrev MultiAssetM : Type := List (Nat × List (PyStr × Int))

/-- The `all_assets` multi-asset handed to the builder as `builder.mint`
(lines 1497-1509 and 1677): one `Asset` per `mints_dict` entry. -/
def allAssets (l : List Token) : MultiAssetM :=
  (mintsDict l).foldl (fun acc e => dictSet acc e.1 (assetsOf e.2)) []

/-- The `mint_multiasset` used for minimum-lovelace calculation
(lines 1494-1508): per policy, only the strictly positive amounts, and
policies whose `mint_assets` is empty are skipped. -/
def mintMultiasset (l : List Token) : MultiAssetM :=
  (mintsDict l).foldl
    (fun acc e =>
      let ma := mintAssetsOf e.2
      if ma ≠ [] then dictSet acc e.1 ma else acc) []

/-- Two-level lookup into a multi-asset. -/
def assetLookup (m : MultiAssetM) (p : Nat) (n : PyStr) : Option Int :=
  (dictGet? m p).bind (fun inner => dictGet? inner n)

/-- The last token of the mint list with the given policy and name, whose
amount survives the dict overwrites. -/
def lastToken? (l : List Token) (p : Nat) (n : PyStr) : Option Token :=
  (l.filter (fun t => t.policyId = p ∧ t.name = n)).getLast?

/-! ## Output formatting (`Wallet.transact`, lines 1684-1738)

Outputs carry a resolved address (abstracted as a `Nat` id), the
`output.amount.lovelace` integer, and a token list.  The builder-supplied
`min_lovelace(context, output=TransactionOutput(addr, Value(1000000, ma)))`
collaborator is abstracted as a function of the address, the placeholder
coin, and the multi-asset. -/

/-- A user-declared `Output` after address resolution and `Lovelace`
coercion (lines 582-612, 1714-1722). -/
structure OutputM where
  address : Nat
  lovelace : Int
  tokens : List Token
deriving DecidableEq

/-- The per-output `output_policies` merge (lines 1689-1703): duplicates
within one output sum, with the quirk that a falsy stored amount (`0`) is
overwritten rather than summed — numerically the same result. -/
def outputPoliciesStep (d : MultiAssetM) (t : Token) : MultiAssetM :=
  let inner := (dictGet? d t.policyId).getD []
  let v :=
    match dictGet? inner t.name with
    | some prev => if prev ≠ 0 then prev + t.amount else t.amount
    | none => t.amount
  dictSet d t.policyId (dictSet inner t.name v)

/-- The `multi_asset` of one output (lines 1686-1712): the merged
`output_policies` rebuilt as a `MultiAsset` (the rebuild at lines 1705-1712
iterates a dict with distinct keys, reproducing it entrywise). -/
def outputMultiasset (tokens : List Token) : MultiAssetM :=
  tokens.foldl outputPoliciesStep []

/-- The formatted value record the builder receives from `add_output`
(line 1734-1738): address, final coin, and the output's own multi-asset. -/
structure ValueRecord where
  address : Nat
  coin : Int
  multiAsset : MultiAssetM
deriving DecidableEq

/-- The output-formatting loop (lines 1684-1738): build the output's own
multi-asset, then — only when `output.amount.lovelace` is falsy, i.e. zero —
replace the amount with `min_lovelace` queried on a record carrying the
transaction-wide `mint_multiasset`; nonzero amounts pass through. -/
def formatOutputs (minL : Nat → Int → MultiAssetM → Int) (mintMA : MultiAssetM)
    (outputs : List OutputM) : List ValueRecord :=
  outputs.map (fun o =>
    let ma := outputMultiasset o.tokens
    let amt := if o.lovelace = 0 then minL o.address 1000000 mintMA else o.lovelace
    ⟨o.address, amt, ma⟩)

/-- The full output stage of `transact`: the mint list determines the
`mint_multiasset` consulted for zero-amount outputs. -/
def transactOutputs (minL : Nat → Int → MultiAssetM → Int) (mint_list : List Token)
    (outputs : List OutputM) : List ValueRecord :=
  formatOutputs minL (mintMultiasset mint_list) outputs

/-- The spec's wording of the zero-amount rule, for comparison with the
source: the minimum is queried for a record carrying *that output's own*
multi-asset bundle. -/
def specFormattedCoin (minL : Nat → Int → MultiAssetM → Int) (o : OutputM) : Int :=
  if o.lovelace = 0 then minL o.address 1000000 (outputMultiasset o.tokens) else o.lovelace

/-! ## Certificates and signers (`Wallet.transact`, lines 1432-1441 and
1533-1597; `Wallet.delegate`, lines 1129-1180)

Stake targets resolve to a staking key hash; wallet entries resolve to the
*caller's* stake verification key hash (lines 1548-1549).  Signers carry
only what the claims need: the caller's stake signing key versus anything
else. -/

/-- A shorthand entry of the `stake_registration` argument. -/
inductive StakeTarget where
  | addrStr (staking : Option PyStr)
  | walletT
  | addr (staking : Option PyStr)
deriving DecidableEq

/-- The `stake_registration` argument shape. -/
inductive StakeRegInput where
  | absent
  | flag (b : Bool)
  | single (t : StakeTarget)
  | targets (l : List StakeTarget)

/-- The `delegations` argument shape.  The `{stake-target: pool}` mapping
branch (lines 1573-1597) is outside every claim and not modelled. -/
inductive DelegInput where
  | absent
  | poolStr (pool : PyStr)
  | poolHashV (pool : PyStr)

/-- A member of `signers_list`: the caller's stake signing key or any other
signer. -/
inductive SignerM where
  | selfStake
  | otherSigner (i : Nat)
deriving DecidableEq

/-- A certificate (the two kinds `transact` can append). -/
inductive CertM where
  | registration (cred : PyStr)
  | delegation (cred : PyStr) (pool : PyStr)
deriving DecidableEq

/-- The caller wallet's stake-related state, as the composer reads it. -/
structure WalletCtx where
  stakeVkeyHash : PyStr
  networkTag : Nat
  withdrawableLovelace : Int

/-- The `stake_registration` normalization (lines 1432-1441): a single
truthy non-list non-bool becomes a one-element list, a list is copied, and
everything else — `None`, `True`, `False` included — becomes the empty
list.  `True` is explicitly excluded by the `isinstance(..., bool)` test,
so the later `isinstance(stake_registration_info, bool)` registration
branch (lines 1538-1543) can never run. -/
def normalizeStakeReg : StakeRegInput → List StakeTarget
  | .single t => [t]
  | .targets l => l
  | _ => []

/-- Resolution of one registration entry to a stake hash (lines 1545-1551):
strings resolve to their address's staking part, wallet entries to the
*caller's* stake verification key hash, addresses to their staking part. -/
def resolveStakeHash (w : WalletCtx) : StakeTarget → Option PyStr
  | .addrStr st => st
  | .walletT => some w.stakeVkeyHash
  | .addr st => st

/-- The registration loop (lines 1537-1558): each resolved entry appends a
`StakeRegistration`; a missing staking part raises `ValueError`. -/
def buildRegCerts (w : WalletCtx) : List StakeTarget → Except String (List CertM)
  | [] => .ok []
  | t :: rest =>
    match resolveStakeHash w t with
    | none => .error "Stake hash is not valid for stake registration."
    | some h => do
      let cs ← buildRegCerts w rest
      pure (.registration h :: cs)

/-- The delegation block (lines 1559-1572): a bare pool-id string delegates
the caller and appends the caller's stake signing key to the signer list if
absent; a resolved `PoolKeyHash` delegates the caller without touching the
signers. -/
def buildDelegCerts (w : WalletCtx) (signers : List SignerM) :
    DelegInput → List CertM × List SignerM
  | .absent => ([], signers)
  | .poolStr pool =>
    ([.delegation w.stakeVkeyHash pool],
      if SignerM.selfStake ∈ signers then signers else signers ++ [SignerM.selfStake])
  | .poolHashV pool => ([.delegation w.stakeVkeyHash pool], signers)

/-- The certificate stage of `transact` (lines 1432-1441 and 1533-1597):
normalize `stake_registration`, append registrations, then delegations. -/
def transactCerts (w : WalletCtx) (reg : StakeRegInput) (deleg : DelegInput)
    (signers : List SignerM) : Except String (List CertM × List SignerM) := do
  let regCerts ← buildRegCerts w (normalizeStakeReg reg)
  let (delegCerts, signers2) := buildDelegCerts w signers deleg
  pure (regCerts ++ delegCerts, signers2)

/-- Embeds `Wallet.delegate` (lines 1129-1180) reduced to its certificate effect:
with `register=True` it re-sets `register = not active` and passes the
*boolean* on as `stake_registration`; with `register=False` an inactive
wallet is an error.  `delegations` is the bare pool-id string. -/
def delegateCerts (w : WalletCtx) (active : Bool) (register : Bool) (pool : PyStr) :
    Except String (List CertM × List SignerM) :=
  if register then
    transactCerts w (.flag (¬ active)) (.poolStr pool) []
  else if ¬ active then
    .error "Cannot delegate to a pool. This wallet is not yet registered."
  else
    transactCerts w (.flag false) (.poolStr pool) []

/-! ## Input resolution (`Wallet.transact`, lines 1410-1416 and 1657-1669)

The composer normalizes `inputs` to a list, then feeds every element to the
builder: addresses and strings via `add_input_address`, wallets via their
address (a `ValueError` if the wallet has none), raw UTxOs via `add_input`.
There is no emptiness check anywhere before `builder.build` runs. -/

/-- One element of the `inputs` argument. -/
inductive TxInput where
  | addr (a : Nat)
  | addrStr (a : Nat)
  | wallet (address : Option Nat)
  | utxo (u : Nat)
deriving DecidableEq

/-- What the external `TransactionBuilder` has received when `build` is
called: the registered input addresses and the directly added UTxOs. -/
structure BuilderHandoff where
  inputAddresses : List Nat
  inputUtxos : List Nat
deriving DecidableEq

/-- The `for input_thing in input_list` loop (lines 1661-1669),
accumulating into the builder.  An address-less wallet raises `ValueError`;
every other case registers with the builder, and an empty list registers
nothing and falls straight through to `builder.build`. -/
def resolveInputs : List TxInput → Except String BuilderHandoff
  | [] => .ok ⟨[], []⟩
  | i :: rest => do
    let h ← resolveInputs rest
    match i with
    | .addr a => pure ⟨a :: h.inputAddresses, h.inputUtxos⟩
    | .addrStr a => pure ⟨a :: h.inputAddresses, h.inputUtxos⟩
    | .wallet none => .error "Transaction input has no address."
    | .wallet (some a) => pure ⟨a :: h.inputAddresses, h.inputUtxos⟩
    | .utxo u => pure ⟨h.inputAddresses, u :: h.inputUtxos⟩

/-- The address contribution of one input element, if any. -/
def inputAddressOf : TxInput → Option Nat
  | .addr a => some a
  | .addrStr a => some a
  | .wallet oa => oa
  | .utxo _ => none

/-- The direct-UTxO contribution of one input element, if any. -/
def inputUtxoOf : TxInput → Option Nat
  | .utxo u => some u
  | _ => none

/-! ## Withdrawals (`Wallet.transact`, lines 1599-1655)

The claims concern the keys of the resolved withdrawal map.  Address
byte-encoding is an external collaborator of the engine (spec section 1);
it is modelled from the spec and CIP-19: an address serializes to a header
byte (address type in the high nibble, network tag in the low nibble)
followed by the raw payment and staking key-hash bytes, while a key hash
serializes to its raw bytes alone. -/

/-- A resolved address: optional payment part, optional staking part,
network tag (1 mainnet, 0 testnet). -/
structure AddressM where
  paymentPart : Option PyStr
  stakingPart : Option PyStr
  networkTag : Nat
deriving DecidableEq

/-- Modelled from the spec: `Address.to_primitive` of the external address
encoder (CIP-19) — the header byte followed by the raw key-hash bytes. -/
def addrToPrimitive (a : AddressM) : List Nat :=
  (match a.paymentPart, a.stakingPart with
    | some _, some _ => 0 * 16 + a.networkTag
    | some _, none => 6 * 16 + a.networkTag
    | none, some _ => 14 * 16 + a.networkTag
    | none, none => a.networkTag)
    :: ((a.paymentPart.getD []) ++ (a.stakingPart.getD []))

/-- Modelled from the spec: `VerificationKeyHash.to_primitive` — the raw
hash bytes themselves. -/
def hashToPrimitive (h : PyStr) : List Nat :=
  h

/-- The caller's `stake_address` property (lines 741-749): an address with
only the staking part set. -/
def stakeAddressOf (w : WalletCtx) : AddressM :=
  ⟨none, some w.stakeVkeyHash, w.networkTag⟩

/-- A key of the explicit `withdrawals` mapping: an `Address`, a wallet
(contributing its own `stake_address`), or an address string parsed with
`Address.from_primitive`. -/
inductive WdKey where
  | addrK (a : AddressM)
  | walletK (stakeAddr : AddressM)
  | strK (a : AddressM)
deriving DecidableEq

/-- A value of the explicit `withdrawals` mapping: an `Amount` (resolved to
its minor-unit integer through `.as_lovelace().amount` or `.lovelace`,
lines 1651-1655), the withdraw-all flag (`True` or `"all"`), or anything
else (resolved to zero, line 1645-1646). -/
inductive WdVal where
  | amt (lovelace : Int)
  | allFlag
  | otherVal
deriving DecidableEq

/-- The `withdrawals` argument shape. -/
inductive WdInput where
  | absent
  | flag (b : Bool)
  | mapping (entries : List (WdKey × WdVal))

/-- Resolution of a mapping key to its stake address (lines 1608-1614). -/
def resolveWdKey : WdKey → AddressM
  | .addrK a => a
  | .walletK sa => sa
  | .strK a => a

/-- Resolution of a mapping value to a minor-unit amount (lines 1616-1646).
The withdraw-all flag needs a BlockFrost context able to report reward
balances — `ctxLookup` is `none` otherwise, raising `ValueError`; a missing
or falsy (zero) reported balance collapses to `Lovelace(0)`. -/
def resolveWdVal (ctxLookup : Option (AddressM → Option Int)) (sa : AddressM) :
    WdVal → Except String Int
  | .amt n => .ok n
  | .allFlag =>
    match ctxLookup with
    | none => .error "Withdraw all is only supported with BlockFrostChainContext at the moment."
    | some lookup => .ok ((lookup sa).getD 0)
  | .otherVal => .ok 0

/-- The explicit-mapping loop (lines 1607-1655): resolve the stake address
and the amount, fail on a missing staking part, and assign
`withdraw[stake_address.staking_part.to_primitive()] = amount`. -/
def buildWdMapping (w : WalletCtx) (ctxLookup : Option (AddressM → Option Int))
    (acc : List (List Nat × Int)) :
    List (WdKey × WdVal) → Except String (List (List Nat × Int))
  | [] => .ok acc
  | (k, v) :: rest =>
    match resolveWdVal ctxLookup (resolveWdKey k) v with
    | .error e => .error e
    | .ok amount =>
      match (resolveWdKey k).stakingPart with
      | none => .error "Stake Address is invalid."
      | some sp => buildWdMapping w ctxLookup (dictSet acc (hashToPrimitive sp) amount) rest

/-- The withdrawal stage of `transact` (lines 1599-1655): the boolean
shorthand keys the caller's entry by `self.stake_address.to_primitive()`
and appends the caller's stake signing key to the signers; the explicit
mapping keys entries by `staking_part.to_primitive()`. -/
def transactWithdrawals (w : WalletCtx) (ctxLookup : Option (AddressM → Option Int))
    (wd : WdInput) (signers : List SignerM) :
    Except String (List (List Nat × Int) × List SignerM) :=
  match wd with
  | .flag true =>
    .ok ([(addrToPrimitive (stakeAddressOf w), w.withdrawableLovelace)],
      if SignerM.selfStake ∈ signers then signers else signers ++ [SignerM.selfStake])
  | .mapping entries =>
    match buildWdMapping w ctxLookup [] entries with
    | .error e => .error e
    | .ok m => .ok (m, signers)
  | _ => .ok ([], signers)

/-! ## Token burning (`Wallet.burn_tokens`, lines 1270-1326)

`burn_tokens` rewrites `token.amount = -abs(token.amount)` on each of the
caller's `Token` objects before composing the transaction, and the very
same (now-mutated) objects are passed to `transact` both as `mints` and as
the change output's token list.  Mutation of shared objects is embedded as
one updated list used for all three roles. -/

/-- The observable result of the burn step: the caller's tokens after the
call, the `mints` argument, and the change output's token list. -/
structure BurnResult where
  callerTokens : List Token
  mints : List Token
  outputTokens : List Token

/-- The token-normalizing fragment of `burn_tokens` (lines 1314-1326). -/
def burn_tokens (tokens : List Token) : BurnResult :=
  let updated := tokens.map (fun t => { t with amount := -|t.amount| })
  ⟨updated, updated, updated⟩

/-! ## Lemmas about the Python dict model -/

theorem dictSet_cons_eq {κ ν : Type} [DecidableEq κ] (p : κ × ν) (rest : List (κ × ν))
    (k : κ) (v : ν) (h : p.1 = k) : dictSet (p :: rest) k v = (p.1, v) :: rest := by
  simp [dictSet, h]

theorem dictSet_cons_ne {κ ν : Type} [DecidableEq κ] (p : κ × ν) (rest : List (κ × ν))
    (k : κ) (v : ν) (h : ¬ p.1 = k) : dictSet (p :: rest) k v = p :: dictSet rest k v := by
  simp [dictSet, h]

theorem dictGet?_dictSet {κ ν : Type} [DecidableEq κ] (d : List (κ × ν)) (k k2 : κ) (v : ν) :
    dictGet? (dictSet d k v) k2 = if k2 = k then some v else dictGet? d k2 := by
  induction d with
  | nil =>
    by_cases h : k = k2
    · subst h
      simp [dictSet, dictGet?]
    · have h2 : ¬ k2 = k := fun hc => h hc.symm
      simp [dictSet, dictGet?, h, h2]
  | cons p rest ih =>
    by_cases hp : p.1 = k
    · subst hp
      rw [dictSet_cons_eq p rest p.1 v rfl]
      by_cases h2 : p.1 = k2
      · subst h2
        simp [dictGet?]
      · have h3 : ¬ k2 = p.1 := fun hc => h2 hc.symm
        simp [dictGet?, h2, h3]
    · rw [dictSet_cons_ne p rest k v hp]
      by_cases h2 : p.1 = k2
      · have hk2 : ¬ k2 = k := fun hc => hp (h2.trans hc)
        simp [dictGet?, h2, hk2]
      · simp [dictGet?, h2, ih]

theorem mem_dkeys {κ ν : Type} (d : List (κ × ν)) (k : κ) :
    k ∈ dkeys d ↔ ∃ v, (k, v) ∈ d := by
  constructor
  · intro h
    simp only [dkeys, List.mem_map] at h
    obtain ⟨q, hq, he⟩ := h
    exact ⟨q.2, by simpa [← he] using hq⟩
  · rintro ⟨v, hv⟩
    simp only [dkeys, List.mem_map]
    exact ⟨(k, v), hv, rfl⟩

theorem mem_dictSet {κ ν : Type} [DecidableEq κ] (d : List (κ × ν)) (k : κ) (v : ν) :
    ∀ q ∈ dictSet d k v, q = (k, v) ∨ q ∈ d := by
  induction d with
  | nil =>
    intro q hq
    simp only [dictSet, List.mem_singleton] at hq
    exact Or.inl hq
  | cons p rest ih =>
    intro q hq
    by_cases hp : p.1 = k
    · rw [dictSet_cons_eq p rest k v hp] at hq
      rcases List.mem_cons.mp hq with hq | hq
      · exact Or.inl (by rw [hq, hp])
      · exact Or.inr (List.mem_cons_of_mem _ hq)
    · rw [dictSet_cons_ne p rest k v hp] at hq
      rcases List.mem_cons.mp hq with hq | hq
      · exact Or.inr (hq ▸ List.mem_cons_self _ _)
      · rcases ih q hq with h1 | h1
        · exact Or.inl h1
        · exact Or.inr (List.mem_cons_of_mem _ h1)

theorem dkeys_dictSet_subset {κ ν : Type} [DecidableEq κ] (d : List (κ × ν)) (k : κ) (v : ν) :
    ∀ x ∈ dkeys (dictSet d k v), x = k ∨ x ∈ dkeys d := by
  intro x hx
  obtain ⟨w, hw⟩ := (mem_dkeys _ _).mp hx
  rcases mem_dictSet d k v (x, w) hw with h1 | h1
  · exact Or.inl (congrArg Prod.fst h1)
  · exact Or.inr ((mem_dkeys _ _).mpr ⟨w, h1⟩)

theorem dkeys_dictSet_nodup {κ ν : Type} [DecidableEq κ] (d : List (κ × ν)) (k : κ) (v : ν)
    (h : (dkeys d).Nodup) : (dkeys (dictSet d k v)).Nodup := by
  induction d with
  | nil => simp [dictSet, dkeys]
  | cons p rest ih =>
    simp only [dkeys, List.map_cons, List.nodup_cons] at h
    by_cases hp : p.1 = k
    · rw [dictSet_cons_eq p rest k v hp]
      simp only [dkeys, List.map_cons, List.nodup_cons]
      exact h
    · rw [dictSet_cons_ne p rest k v hp]
      simp only [dkeys, List.map_cons, List.nodup_cons]
      refine ⟨?_, ih h.2⟩
      intro hc
      rcases dkeys_dictSet_subset rest k v p.1 hc with h1 | h1
      · exact hp h1
      · exact h.1 h1

theorem mem_of_dictGet? {κ ν : Type} [DecidableEq κ] (d : List (κ × ν)) (k : κ) (v : ν) :
    dictGet? d k = some v → (k, v) ∈ d := by
  induction d with
  | nil =>
    intro h
    simp [dictGet?] at h
  | cons p rest ih =>
    intro h
    by_cases hp : p.1 = k
    · simp only [dictGet?, if_pos hp] at h
      injection h with h2
      have hpv : p = (k, v) := by
        rw [Prod.ext_iff]
        exact ⟨hp, h2⟩
      exact hpv ▸ List.mem_cons_self _ _
    · simp only [dictGet?, if_neg hp] at h
      exact List.mem_cons_of_mem _ (ih h)

theorem dictGet?_eq_none {κ ν : Type} [DecidableEq κ] (d : List (κ × ν)) (k : κ) :
    dictGet? d k = none ↔ k ∉ dkeys d := by
  induction d with
  | nil => simp [dictGet?, dkeys]
  | cons p rest ih =>
    by_cases hp : p.1 = k
    · subst hp
      simp [dictGet?, dkeys]
    · simp only [dictGet?, if_neg hp]
      rw [ih]
      simp only [dkeys, List.map_cons, List.mem_cons]
      constructor
      · intro h
        rintro (hc | hc)
        · exact hp hc.symm
        · exact h hc
      · intro h hc
        exact h (Or.inr hc)

/-- Rebuilding a map by iterating entries with distinct keys into `dictSet`
assignments reproduces the entries, as a lookup equation. -/
theorem foldl_dictSet_lookup {κ β ν : Type} [DecidableEq κ] (f : κ × β → ν) :
    ∀ (entries : List (κ × β)) (acc : List (κ × ν)) (k : κ),
      (dkeys entries).Nodup → (∀ x ∈ dkeys entries, dictGet? acc x = none) →
      dictGet? (entries.foldl (fun a e => dictSet a e.1 (f e)) acc) k =
        match dictGet? entries k with
        | some v => some (f (k, v))
        | none => dictGet? acc k
  | [], acc, k, _, _ => by simp [dictGet?]
  | e :: rest, acc, k, hnd, hdis => by
    have hnd0 : e.1 ∉ dkeys rest ∧ (dkeys rest).Nodup := by
      simpa only [dkeys, List.map_cons, List.nodup_cons] using hnd
    have hdis2 : ∀ x ∈ dkeys rest, dictGet? (dictSet acc e.1 (f e)) x = none := by
      intro x hx
      rw [dictGet?_dictSet]
      have hxe : ¬ x = e.1 := fun hc => hnd0.1 (hc ▸ hx)
      rw [if_neg hxe]
      refine hdis x ?_
      simp only [dkeys, List.map_cons, List.mem_cons]
      exact Or.inr hx
    rw [List.foldl_cons, foldl_dictSet_lookup f rest (dictSet acc e.1 (f e)) k hnd0.2 hdis2]
    by_cases hk : k = e.1
    · subst hk
      have hrest : dictGet? rest e.1 = none := by
        rw [dictGet?_eq_none]
        exact hnd0.1
      have hhd : dictGet? (e :: rest) e.1 = some e.2 := by
        simp [dictGet?]
      rw [hrest, hhd]
      show dictGet? (dictSet acc e.1 (f e)) e.1 = some (f (e.1, e.2))
      rw [dictGet?_dictSet, if_pos rfl]
    · have hhd : dictGet? (e :: rest) k = dictGet? rest k := by
        have h3 : ¬ e.1 = k := fun hc => hk hc.symm
        simp [dictGet?, h3]
      rw [hhd]
      cases hr : dictGet? rest k with
      | some v2 => rfl
      | none =>
        show dictGet? (dictSet acc e.1 (f e)) k = dictGet? acc k
        rw [dictGet?_dictSet, if_neg hk]

/-- Folding `dictSet` assignments over any entry list preserves distinctness
of the accumulated keys, whatever the assigned keys and values are. -/
theorem foldl_dictSet_nodup {κ β ν : Type} [DecidableEq κ] (key : β → κ)
    (val : List (κ × ν) → β → ν) :
    ∀ (entries : List β) (acc : List (κ × ν)),
      (dkeys acc).Nodup →
      (dkeys (entries.foldl (fun a e => dictSet a (key e) (val a e)) acc)).Nodup
  | [], _, h => h
  | e :: rest, acc, h =>
    foldl_dictSet_nodup key val rest _ (dkeys_dictSet_nodup _ _ _ h)

/-! ## C1: mint aggregation -/

theorem lastToken?_cons (t : Token) (l : List Token) (p : Nat) (n : PyStr) :
    lastToken? (t :: l) p n =
      match lastToken? l p n with
      | some x => some x
      | none => if t.policyId = p ∧ t.name = n then some t else none := by
  unfold lastToken?
  by_cases h : t.policyId = p ∧ t.name = n
  · rw [List.filter_cons_of_pos (by simpa using h)]
    cases hl : l.filter (fun x => decide (x.policyId = p ∧ x.name = n)) with
    | nil => simp [hl, h]
    | cons a as =>
      rw [List.getLast?_cons_cons]
      cases hg : (a :: as).getLast? with
      | none => simp at hg
      | some x => rfl
  · rw [List.filter_cons_of_neg (by simpa using h)]
    cases hg : (l.filter (fun x => decide (x.policyId = p ∧ x.name = n))).getLast? with
    | none => simp [h]
    | some x => rfl

theorem innerLookup_mintsDictStep (acc : List (Nat × List (PyStr × Token))) (t : Token)
    (p : Nat) (n : PyStr) :
    dictGet? ((dictGet? (mintsDictStep acc t) p).getD []) n =
      if t.policyId = p ∧ t.name = n then some t
      else dictGet? ((dictGet? acc p).getD []) n := by
  unfold mintsDictStep
  by_cases hp : t.policyId = p
  · subst hp
    rw [dictGet?_dictSet, if_pos rfl, Option.getD_some, dictGet?_dictSet]
    by_cases hn : n = t.name
    · subst hn
      rw [if_pos rfl, if_pos ⟨rfl, rfl⟩]
    · rw [if_neg hn, if_neg (fun hc => hn hc.2.symm)]
  · rw [dictGet?_dictSet, if_neg (fun hc : p = t.policyId => hp hc.symm),
      if_neg (fun hc : t.policyId = p ∧ t.name = n => hp hc.1)]

theorem mints_fold_lookup :
    ∀ (l : List Token) (acc : List (Nat × List (PyStr × Token))) (p : Nat) (n : PyStr),
      dictGet? ((dictGet? (l.foldl mintsDictStep acc) p).getD []) n =
        match lastToken? l p n with
        | some x => some x
        | none => dictGet? ((dictGet? acc p).getD []) n
  | [], acc, p, n => by simp [lastToken?]
  | t :: rest, acc, p, n => by
    rw [List.foldl_cons, mints_fold_lookup rest (mintsDictStep acc t) p n, lastToken?_cons,
      innerLookup_mintsDictStep]
    cases lastToken? rest p n with
    | some x => simp
    | none =>
      by_cases h : t.policyId = p ∧ t.name = n <;> simp [h]

theorem mintsDict_fold_nodup :
    ∀ (l : List Token) (acc : List (Nat × List (PyStr × Token))),
      (dkeys acc).Nodup → (dkeys (l.foldl mintsDictStep acc)).Nodup
  | [], acc, h => h
  | t :: rest, acc, h =>
    mintsDict_fold_nodup rest (mintsDictStep acc t) (dkeys_dictSet_nodup _ _ _ h)

/-- The invariants of every inner dict of `mints_dict`: keys are distinct
and each value is the token stored under its own name. -/
def InnerInv (d : List (Nat × List (PyStr × Token))) : Prop :=
  ∀ e ∈ d, (dkeys e.2).Nodup ∧ ∀ q ∈ e.2, q.2.name = q.1

theorem innerInv_fold :
    ∀ (l : List Token) (acc : List (Nat × List (PyStr × Token))),
      InnerInv acc → InnerInv (l.foldl mintsDictStep acc)
  | [], _, h => h
  | t :: rest, acc, h => by
    rw [List.foldl_cons]
    refine innerInv_fold rest (mintsDictStep acc t) ?_
    intro e he
    unfold mintsDictStep at he
    rcases mem_dictSet _ _ _ e he with h1 | h1
    · subst h1
      have hinner : (dkeys ((dictGet? acc t.policyId).getD [])).Nodup ∧
          ∀ q ∈ (dictGet? acc t.policyId).getD [], q.2.name = q.1 := by
        cases hg : dictGet? acc t.policyId with
        | none => simp [dkeys]
        | some inner =>
          have := h (t.policyId, inner) (mem_of_dictGet? _ _ _ hg)
          simpa using this
      constructor
      · exact dkeys_dictSet_nodup _ _ _ hinner.1
      · intro q hq
        rcases mem_dictSet _ _ _ q hq with h2 | h2
        · simp [h2]
        · exact hinner.2 q h2
    · exact h e h1

theorem assetsOf_lookup :
    ∀ (inner : List (PyStr × Token)) (n : PyStr),
      (dkeys inner).Nodup → (∀ q ∈ inner, q.2.name = q.1) →
      dictGet? (assetsOf inner) n = (dictGet? inner n).map Token.amount := by
  intro inner n hnd hinv
  have hfun : inner.foldl (fun a p => dictSet a p.2.name p.2.amount) [] =
      inner.foldl (fun a e => dictSet a e.1 ((fun q => q.2.amount) e)) [] := by
    apply List.foldl_ext
    intro a b hb
    rw [hinv b hb]
  unfold assetsOf
  rw [hfun, foldl_dictSet_lookup (fun q => q.2.amount) inner [] n hnd (by simp [dictGet?])]
  cases dictGet? inner n with
  | none => simp [dictGet?]
  | some t => simp

theorem allAssets_lookup (l : List Token) (p : Nat) :
    dictGet? (allAssets l) p = (dictGet? (mintsDict l) p).map assetsOf := by
  unfold allAssets
  rw [foldl_dictSet_lookup (fun e => assetsOf e.2) (mintsDict l) [] p
    (mintsDict_fold_nodup l [] (by simp [dkeys])) (by simp [dictGet?])]
  cases dictGet? (mintsDict l) p with
  | none => simp [dictGet?]
  | some inner => simp

/-- Claim C1 (amended): in the aggregated mint value handed to the builder,
each (policy, name) pair has at most one entry (the policy keys are
distinct), and its amount is the amount of the *last* token of the mint
list with that policy and name — duplicates overwrite, they do not sum. -/
theorem c1_mint_aggregation_last_wins (l : List Token) (p : Nat) (n : PyStr) :
    assetLookup (allAssets l) p n = (lastToken? l p n).map Token.amount ∧
    (dkeys (allAssets l)).Nodup ∧
    (dkeys ((dictGet? (allAssets l) p).getD [])).Nodup := by
  have hinv : InnerInv (mintsDict l) := innerInv_fold l [] (by intro e he; simp at he)
  have hlast : dictGet? ((dictGet? (mintsDict l) p).getD []) n =
      match lastToken? l p n with
      | some x => some x
      | none => none := mints_fold_lookup l [] p n
  have hnodup : (dkeys (allAssets l)).Nodup := by
    unfold allAssets
    exact foldl_dictSet_nodup Prod.fst (fun _ e => assetsOf e.2) (mintsDict l) []
      (by simp [dkeys])
  refine ⟨?_, hnodup, ?_⟩
  · unfold assetLookup
    rw [allAssets_lookup]
    cases hg : dictGet? (mintsDict l) p with
    | none =>
      rw [hg] at hlast
      have h0 : (none : Option Token) =
          match lastToken? l p n with
          | some x => some x
          | none => none := hlast
      cases hl : lastToken? l p n with
      | none => rfl
      | some x =>
        rw [hl] at h0
        simp at h0
    | some inner =>
      have hin := hinv (p, inner) (mem_of_dictGet? _ _ _ hg)
      show dictGet? (assetsOf inner) n = (lastToken? l p n).map Token.amount
      rw [assetsOf_lookup inner n (by simpa using hin.1) (by simpa using hin.2)]
      rw [hg] at hlast
      have h2 : dictGet? inner n =
          match lastToken? l p n with
          | some x => some x
          | none => none := hlast
      rw [h2]
      cases lastToken? l p n <;> rfl
  · rw [allAssets_lookup]
    cases hg : dictGet? (mintsDict l) p with
    | none => simp [dkeys]
    | some inner =>
      show (dkeys (assetsOf inner)).Nodup
      unfold assetsOf
      exact foldl_dictSet_nodup (fun q => q.2.name) (fun _ q => q.2.amount) inner []
        (by simp [dkeys])

/-- Claim C1, as stated, is false: two mint-list tokens with the same
policy and name and amounts 1 and 2 leave a single entry of amount 2 (the
last one), not 1 + 2. -/
theorem c1_counterexample :
    assetLookup (allAssets [⟨0, [97], 1⟩, ⟨0, [97], 2⟩]) 0 [97] = some 2 ∧
    assetLookup (allAssets [⟨0, [97], 1⟩, ⟨0, [97], 2⟩]) 0 [97] ≠ some (1 + 2) := by
  decide

/-! ## C2: zero-amount outputs and the minimum-lovelace substitution -/

/-- Claim C2 (amended): a zero-amount output's coin is replaced by the
builder-reported minimum computed on a record carrying the transaction's
aggregated positive-mint bundle (`mint_multiasset`), not the output's own
bundle, and nonzero caller-supplied amounts pass through unmodified. -/
theorem c2_min_value_uses_mint_bundle (minL : Nat → Int → MultiAssetM → Int)
    (mint_list : List Token) (outputs : List OutputM) :
    (transactOutputs minL mint_list outputs).length = outputs.length ∧
    ∀ (i : Nat) (h : i < outputs.length)
      (h2 : i < (transactOutputs minL mint_list outputs).length),
      ((transactOutputs minL mint_list outputs).get ⟨i, h2⟩).address =
        (outputs.get ⟨i, h⟩).address ∧
      ((transactOutputs minL mint_list outputs).get ⟨i, h2⟩).multiAsset =
        outputMultiasset (outputs.get ⟨i, h⟩).tokens ∧
      ((transactOutputs minL mint_list outputs).get ⟨i, h2⟩).coin =
        (if (outputs.get ⟨i, h⟩).lovelace = 0
          then minL (outputs.get ⟨i, h⟩).address 1000000 (mintMultiasset mint_list)
          else (outputs.get ⟨i, h⟩).lovelace) ∧
      ((outputs.get ⟨i, h⟩).lovelace ≠ 0 →
        ((transactOutputs minL mint_list outputs).get ⟨i, h2⟩).coin =
          (outputs.get ⟨i, h⟩).lovelace) := by
  constructor
  · simp [transactOutputs, formatOutputs]
  · intro i h h2
    have hget : (transactOutputs minL mint_list outputs).get ⟨i, h2⟩ =
        (fun o => (⟨o.address,
          if o.lovelace = 0 then minL o.address 1000000 (mintMultiasset mint_list)
          else o.lovelace,
          outputMultiasset o.tokens⟩ : ValueRecord)) (outputs.get ⟨i, h⟩) := by
      simp [transactOutputs, formatOutputs, List.get_map]
    refine ⟨by rw [hget], by rw [hget], by rw [hget], ?_⟩
    intro hnz
    rw [hget]
    exact if_neg hnz

/-- Witness for C2: a nonzero two-lovelace... a concrete output with
coin 5 passes through unchanged under an arbitrary builder minimum. -/
theorem c2_witness :
    ((transactOutputs (fun _ _ _ => 7) [] [⟨0, 5, []⟩]).get
      ⟨0, by decide⟩).coin = 5 := by
  have h := (c2_min_value_uses_mint_bundle (fun _ _ _ => 7) [] [⟨0, 5, []⟩]).2 0
    (by decide) (by decide)
  have h2 := h.2.2.2 (by decide)
  rw [h2]
  rfl

/-- Claim C2, as stated, is false: with no mints, a zero-amount output
carrying its own token bundle is priced by the builder minimum for the
*empty* mint bundle, not for a record carrying the output's own bundle. -/
theorem c2_counterexample :
    (transactOutputs (fun _ _ ma => 1000000 + 1000 * (ma.length : Int)) []
        [⟨0, 0, [⟨5, [97], 1⟩]⟩]).map ValueRecord.coin = [1000000] ∧
    specFormattedCoin (fun _ _ ma => 1000000 + 1000 * (ma.length : Int))
        ⟨0, 0, [⟨5, [97], 1⟩]⟩ = 1001000 ∧
    (1000000 : Int) ≠ 1001000 := by
  refine ⟨by rfl, by rfl, by decide⟩

/-! ## C3: delegation with registration shorthand -/

/-- Claim C3: the code at the claim's failing input.  A delegation with a
bare pool-id string, `register=True` and no prior registration yields *only*
the delegation certificate — the `True` shorthand is normalized to an empty
list (lines 1432-1441), so the `isinstance(stake_registration_info, bool)`
registration branch (lines 1538-1543) is unreachable and no
`StakeRegistration` is emitted; the caller's stake signing key is appended
exactly once. -/
theorem c3_registration_certificate_missing :
    delegateCerts ⟨[7, 7], 1, 0⟩ false true [9] =
      .ok ([CertM.delegation [7, 7] [9]], [SignerM.selfStake]) ∧
    transactCerts ⟨[7, 7], 1, 0⟩ (.flag true) (.poolStr [9]) [SignerM.selfStake] =
      .ok ([CertM.delegation [7, 7] [9]], [SignerM.selfStake]) := by
  constructor
  · rfl
  · rfl

/-! ## C4: empty input sets reach the builder -/

/-- Claim C4 (amended): the composer performs no empty-input check — input
resolution errs only on an address-less wallet, and otherwise the builder
receives exactly the resolved addresses and UTxOs, an empty set included. -/
theorem c4_inputs_passed_through (l : List TxInput)
    (h : ∀ i ∈ l, i ≠ TxInput.wallet none) :
    resolveInputs l = .ok ⟨l.filterMap inputAddressOf, l.filterMap inputUtxoOf⟩ := by
  induction l with
  | nil => rfl
  | cons i rest ih =>
    have hrest := ih (fun j hj => h j (List.mem_cons_of_mem _ hj))
    have hi := h i (List.mem_cons_self _ _)
    cases i with
    | addr a =>
      simp only [resolveInputs, hrest]
      rfl
    | addrStr a =>
      simp only [resolveInputs, hrest]
      rfl
    | wallet oa =>
      cases oa with
      | none => exact absurd rfl hi
      | some a =>
        simp only [resolveInputs, hrest]
        rfl
    | utxo u =>
      simp only [resolveInputs, hrest]
      rfl

/-- Witness for C4: a singleton UTxO input resolves to a builder handoff
with that UTxO and no addresses. -/
theorem c4_witness :
    resolveInputs [TxInput.utxo 3] = .ok ⟨[], [3]⟩ :=
  c4_inputs_passed_through [TxInput.utxo 3] (by decide)

/-- Claim C4, as stated, is false: an empty input resolution does not fail
before the builder — the composer hands the builder an empty input set and
`builder.build` is still invoked. -/
theorem c4_counterexample :
    resolveInputs [] = .ok ⟨[], []⟩ := by
  rfl

/-! ## C5: withdrawal map keys -/

theorem buildWdMapping_mem (w : WalletCtx) (ctx : Option (AddressM → Option Int)) :
    ∀ (entries : List (WdKey × WdVal)) (acc m : List (List Nat × Int)),
      buildWdMapping w ctx acc entries = .ok m →
      ∀ kv ∈ m, kv ∈ acc ∨ ∃ e ∈ entries, ∃ sp,
        (resolveWdKey e.1).stakingPart = some sp ∧
        kv.1 = hashToPrimitive sp ∧
        resolveWdVal ctx (resolveWdKey e.1) e.2 = .ok kv.2
  | [], acc, m, h => by
    intro kv hkv
    simp only [buildWdMapping] at h
    injection h with h2
    exact Or.inl (h2 ▸ hkv)
  | (k, v) :: rest, acc, m, h => by
    intro kv hkv
    simp only [buildWdMapping] at h
    cases hv : resolveWdVal ctx (resolveWdKey k) v with
    | error e =>
      rw [hv] at h
      cases h
    | ok amount =>
      rw [hv] at h
      cases hsp : (resolveWdKey k).stakingPart with
      | none =>
        rw [hsp] at h
        cases h
      | some sp =>
        rw [hsp] at h
        rcases buildWdMapping_mem w ctx rest _ m h kv hkv with h1 | h1
        · rcases mem_dictSet _ _ _ kv h1 with h2 | h2
          · refine Or.inr ⟨(k, v), List.mem_cons_self _ _, sp, hsp, ?_, ?_⟩
            · rw [h2]
            · rw [h2]
              exact hv
          · exact Or.inl h2
        · rcases h1 with ⟨e, he, sp2, h2⟩
          exact Or.inr ⟨e, List.mem_cons_of_mem _ he, sp2, h2⟩

/-- Claim C5 (amended): the `True` withdrawal shorthand keys the caller's
single entry by the *serialized stake-address bytes* (header byte followed
by the staking-key hash) with the caller's withdrawable balance, while the
explicit mapping keys every entry by the raw staking-key-hash bytes of its
resolved stake target, valued at the resolved minor-unit amount. -/
theorem c5_withdrawal_key_shapes :
    (∀ (w : WalletCtx) (ctx : Option (AddressM → Option Int)) (signers : List SignerM),
      transactWithdrawals w ctx (.flag true) signers =
        .ok ([(addrToPrimitive (stakeAddressOf w), w.withdrawableLovelace)],
          if SignerM.selfStake ∈ signers then signers
          else signers ++ [SignerM.selfStake])) ∧
    (∀ (w : WalletCtx) (ctx : Option (AddressM → Option Int))
      (entries : List (WdKey × WdVal)) (signers : List SignerM)
      (m : List (List Nat × Int)) (s2 : List SignerM),
      transactWithdrawals w ctx (.mapping entries) signers = .ok (m, s2) →
      s2 = signers ∧
      ∀ kv ∈ m, ∃ e ∈ entries, ∃ sp,
        (resolveWdKey e.1).stakingPart = some sp ∧
        kv.1 = hashToPrimitive sp ∧
        resolveWdVal ctx (resolveWdKey e.1) e.2 = .ok kv.2) := by
  constructor
  · intro w ctx signers
    rfl
  · intro w ctx entries signers m s2 h
    simp only [transactWithdrawals] at h
    cases hb : buildWdMapping w ctx [] entries with
    | error e =>
      rw [hb] at h
      cases h
    | ok m2 =>
      rw [hb] at h
      injection h with h2
      injection h2 with h3 h4
      subst h3
      subst h4
      refine ⟨rfl, ?_⟩
      intro kv hkv
      rcases buildWdMapping_mem w ctx entries [] m2 hb kv hkv with h1 | h1
      · cases h1
      · exact h1

/-- Witness for C5: a one-entry explicit mapping with an explicit amount is
keyed by the raw staking-key hash. -/
theorem c5_witness :
    ∃ e ∈ [((WdKey.addrK ⟨none, some [4], 0⟩), WdVal.amt 9)], ∃ sp,
      (resolveWdKey e.1).stakingPart = some sp ∧
      ([4] : List Nat) = hashToPrimitive sp ∧
      resolveWdVal none (resolveWdKey e.1) e.2 = .ok 9 := by
  have h := (c5_withdrawal_key_shapes.2 ⟨[1], 1, 0⟩ none
    [((WdKey.addrK ⟨none, some [4], 0⟩), WdVal.amt 9)] [] [([4], 9)] []
    (by rfl)).2 ([4], 9) (by decide)
  exact h

/-- Claim C5, as stated, is false: under the `True` shorthand the caller's
entry is keyed by the serialized stake address — a header byte followed by
the staking-key hash — not by the raw staking-key-hash bytes. -/
theorem c5_counterexample :
    transactWithdrawals ⟨[1, 2, 3], 1, 500⟩ none (.flag true) [] =
      .ok ([([225, 1, 2, 3], 500)], [SignerM.selfStake]) ∧
    ([225, 1, 2, 3] : List Nat) ≠ hashToPrimitive [1, 2, 3] := by
  constructor
  · rfl
  · decide

/-! ## C6: metadata validation and the 64-character limit -/

mutual

theorem longChar_size_meta : ∀ m : Meta, longCharLeaf m = true →
    64 < pyStrLen m ∧ 64 < reprLen m
  | .s v, h => by
    have h2 : 64 < v.length := by simpa [longCharLeaf] using h
    refine ⟨by simpa [pyStrLen] using h2, ?_⟩
    simp only [reprLen]
    omega
  | .i n, h => by simp [longCharLeaf] at h
  | .l js, h => by
    have h2 := longChar_size_list js (by simpa [longCharLeaf] using h)
    constructor <;> simp only [pyStrLen, reprLen] <;> omega
  | .d es, h => by
    have h2 := longChar_size_dict es (by simpa [longCharLeaf] using h)
    constructor <;> simp only [pyStrLen, reprLen] <;> omega

theorem longChar_size_list : ∀ js : MetaList, longCharLeafList js = true →
    64 < reprLenList js
  | .cons hd tl, h => by
    simp only [longCharLeafList, Bool.or_eq_true] at h
    rcases h with h | h
    · have h2 := (longChar_size_meta hd h).2
      cases tl with
      | nil => simpa [reprLenList] using h2
      | cons a b =>
        simp only [reprLenList]
        omega
    · have h2 := longChar_size_list tl h
      cases tl with
      | nil => simp [longCharLeafList] at h
      | cons a b =>
        simp only [reprLenList] at h2 ⊢
        omega

theorem longChar_size_dict : ∀ es : MetaDict, longCharLeafDict es = true →
    64 < reprLenDict es
  | .cons k v tl, h => by
    simp only [longCharLeafDict, Bool.or_eq_true] at h
    rcases h with (h | h) | h
    · have h2 : 64 < metaKeyReprLen k := by
        cases k with
        | ks s =>
          have h3 : 64 < s.length := by simpa [metaKeyLongChar] using h
          simp only [metaKeyReprLen]
          omega
        | ki n => simp [metaKeyLongChar] at h
      cases tl with
      | nil =>
        simp only [reprLenDict]
        omega
      | cons k2 v2 b =>
        simp only [reprLenDict]
        omega
    · have h2 := (longChar_size_meta v h).2
      cases tl with
      | nil =>
        simp only [reprLenDict]
        omega
      | cons k2 v2 b =>
        simp only [reprLenDict]
        omega
    · have h2 := longChar_size_dict tl h
      cases tl with
      | nil => simp [longCharLeafDict] at h
      | cons k2 v2 b =>
        simp only [reprLenDict] at h2 ⊢
        omega

end

theorem metaKey_not_longChar (k : MetaKey) (hk : ¬ metaKeyStrLen k > 64) :
    metaKeyLongChar k = false := by
  cases k with
  | ks s =>
    simp only [metaKeyStrLen, Nat.not_lt] at hk
    simp only [metaKeyLongChar]
    simpa using hk
  | ki n => rfl

mutual

theorem check_ok_meta : ∀ m : Meta, check_metadata m = .ok () → longCharLeaf m = false
  | .s v, h => by
    simp only [check_metadata] at h
    by_cases h2 : v.length > 64
    · rw [if_pos h2] at h
      cases h
    · simp only [longCharLeaf]
      simpa using h2
  | .i _, _ => rfl
  | .l js, h => by
    simpa [longCharLeaf] using check_ok_list js (by simpa [check_metadata] using h)
  | .d es, h => by
    simpa [longCharLeaf] using check_ok_dict es (by simpa [check_metadata] using h)

theorem check_ok_list : ∀ js : MetaList, checkList js = .ok () → longCharLeafList js = false
  | .nil, _ => rfl
  | .cons hd tl, h => by
    simp only [checkList] at h
    by_cases h2 : pyStrLen hd > 64
    · rw [if_pos h2] at h
      cases h
    · rw [if_neg h2] at h
      have htl := check_ok_list tl h
      have hhd : longCharLeaf hd = false := by
        cases hx : longCharLeaf hd
        · rfl
        · have := (longChar_size_meta hd hx).1
          omega
      simp [longCharLeafList, hhd, htl]

theorem check_ok_dict : ∀ es : MetaDict, checkDict es = .ok () → longCharLeafDict es = false
  | .nil, _ => rfl
  | .cons k v tl, h => by
    cases v with
    | s sv =>
      simp only [checkDict] at h
      by_cases hk : metaKeyStrLen k > 64
      · rw [if_pos hk] at h
        cases h
      · rw [if_neg hk] at h
        by_cases h2 : pyStrLen (Meta.s sv) > 64
        · rw [if_pos h2] at h
          cases h
        · rw [if_neg h2] at h
          have htl := check_ok_dict tl h
          have hv : longCharLeaf (Meta.s sv) = false := by
            simp only [pyStrLen, Nat.not_lt] at h2
            simp only [longCharLeaf]
            simpa using h2
          simp [longCharLeafDict, metaKey_not_longChar k hk, hv, htl]
    | i n =>
      simp only [checkDict] at h
      by_cases hk : metaKeyStrLen k > 64
      · rw [if_pos hk] at h
        cases h
      · rw [if_neg hk] at h
        by_cases h2 : pyStrLen (Meta.i n) > 64
        · rw [if_pos h2] at h
          cases h
        · rw [if_neg h2] at h
          have htl := check_ok_dict tl h
          simp [longCharLeafDict, metaKey_not_longChar k hk, htl, longCharLeaf]
    | l is =>
      simp only [checkDict] at h
      by_cases hk : metaKeyStrLen k > 64
      · rw [if_pos hk] at h
        cases h
      · rw [if_neg hk] at h
        cases hc : checkList is with
        | error e =>
          rw [hc] at h
          cases h
        | ok u =>
          cases u
          rw [hc] at h
          have h1 := check_ok_list is hc
          have htl := check_ok_dict tl h
          simp [longCharLeafDict, metaKey_not_longChar k hk, htl, longCharLeaf, h1]
    | d es2 =>
      simp only [checkDict] at h
      by_cases hk : metaKeyStrLen k > 64
      · rw [if_pos hk] at h
        cases h
      · rw [if_neg hk] at h
        cases hc : checkDict es2 with
        | error e =>
          rw [hc] at h
          cases h
        | ok u =>
          cases u
          rw [hc] at h
          have h1 := check_ok_dict es2 hc
          have htl := check_ok_dict tl h
          simp [longCharLeafDict, metaKey_not_longChar k hk, htl, longCharLeaf, h1]

end

/-- Claim C6 (amended): a leaf string of more than 64 *characters* (code
points) at any nesting depth makes `check_metadata` raise the field-too-
long error; the 64-*byte* version of the claim is refuted by
`c6_counterexample`. -/
theorem c6_long_char_leaf_raises (m : Meta) (h : longCharLeaf m = true) :
    check_metadata m = .error .fieldTooLong := by
  cases hc : check_metadata m with
  | ok u =>
    cases u
    have h2 := check_ok_meta m hc
    rw [h] at h2
    cases h2
  | error e =>
    cases e
    rfl

/-- Witness for C6: a 65-character string raises the error. -/
theorem c6_witness :
    longCharLeaf (.s (List.replicate 65 97)) = true ∧
    check_metadata (.s (List.replicate 65 97)) = .error .fieldTooLong :=
  ⟨by decide, c6_long_char_leaf_raises _ (by decide)⟩

/-- Claim C6, as stated, is false: a nested leaf string of 33 two-byte
characters is 66 UTF-8 bytes long — beyond the claimed 64-byte limit — yet
validation succeeds, because the code measures `len(str(...))` in
characters. -/
theorem c6_counterexample :
    longByteLeaf (.d (.cons (.ks [107]) (.s (List.replicate 33 233)) .nil)) = true ∧
    check_metadata (.d (.cons (.ks [107]) (.s (List.replicate 33 233)) .nil)) = .ok () := by
  constructor
  · decide
  · decide

/-! ## C7: message chunking -/

theorem checkLines_ok : ∀ ls : List PyStr, (∀ x ∈ ls, x.length ≤ 64) →
    checkLines ls = .ok ()
  | [], _ => rfl
  | line :: rest, h => by
    have h1 : ¬ line.length > 64 := by
      have := h line (List.mem_cons_self _ _)
      omega
    simp only [checkLines, if_neg h1]
    exact checkLines_ok rest (fun x hx => h x (List.mem_cons_of_mem _ hx))

theorem pyChunks_length (s : PyStr) :
    (pyChunks s).length = (s.length + 63) / 64 := by
  simp [pyChunks]

theorem pyChunks_le (s : PyStr) : ∀ seg ∈ pyChunks s, seg.length ≤ 64 := by
  intro seg hseg
  simp only [pyChunks, List.mem_map, List.mem_range] at hseg
  obtain ⟨i, _, he⟩ := hseg
  rw [← he]
  simpa using List.length_take_le 64 (s.drop (64 * i))

theorem pyChunks_cons (s : PyStr) (h : s ≠ []) :
    pyChunks s = s.take 64 :: pyChunks (s.drop 64) := by
  have hpos : 1 ≤ s.length := List.length_pos.mpr h
  have hn : (s.length + 63) / 64 = ((s.length - 64) + 63) / 64 + 1 := by omega
  unfold pyChunks
  rw [List.length_drop, hn, List.range_succ_eq_map, List.map_cons, List.map_map]
  refine List.cons_eq_cons.mpr ⟨by simp, ?_⟩
  apply List.map_congr_left
  intro i _
  simp only [Function.comp_apply, List.drop_drop]
  have he : 64 * Nat.succ i = 64 + 64 * i := by omega
  rw [he]

theorem pyChunks_join (s : PyStr) : (pyChunks s).join = s := by
  by_cases h : s = []
  · subst h
    rfl
  · rw [pyChunks_cons s h]
    have hj : (List.take 64 s :: pyChunks (s.drop 64)).join =
        List.take 64 s ++ (pyChunks (s.drop 64)).join := rfl
    rw [hj, pyChunks_join (s.drop 64), List.take_append_drop]
termination_by s.length
decreasing_by
  have hpos : 1 ≤ s.length := List.length_pos.mpr h
  simp only [List.length_drop]
  omega

/-- Claim C7 (amended): chunking a message of L *characters* yields
`ceil(L / 64)` segments of at most 64 *characters* each, concatenating back
to the original; the 64-*byte* version of the claim is refuted by
`c7_counterexample`. -/
theorem c7_message_chunking (s : PyStr) :
    format_message (.one s) = .ok (pyChunks s) ∧
    (pyChunks s).length = (s.length + 63) / 64 ∧
    (∀ seg ∈ pyChunks s, seg.length ≤ 64) ∧
    (pyChunks s).join = s := by
  refine ⟨?_, pyChunks_length s, pyChunks_le s, pyChunks_join s⟩
  simp only [format_message]
  rw [checkLines_ok (pyChunks s) (pyChunks_le s)]

/-- Witness for C7: a 65-character message chunks into two valid segments. -/
theorem c7_witness :
    (List.replicate 64 97 : PyStr).length ≤ 64 ∧
    format_message (.one (List.replicate 65 97)) =
      .ok (pyChunks (List.replicate 65 97)) :=
  ⟨(c7_message_chunking (List.replicate 65 97)).2.2.1 (List.replicate 64 97) (by decide),
    (c7_message_chunking (List.replicate 65 97)).1⟩

/-- Claim C7, as stated, is false: a message of 33 two-byte characters
(66 UTF-8 bytes) is left as a single segment of 66 bytes — more than the
claimed 64-byte segment bound (and not the two segments `ceil(66 / 64)`
would demand of a byte reading of L). -/
theorem c7_counterexample :
    format_message (.one (List.replicate 33 233)) = .ok [List.replicate 33 233] ∧
    ¬ utf8Len (List.replicate 33 233) ≤ 64 := by
  constructor
  · decide
  · decide

/-! ## C8: arithmetic returns the left operand's concrete subtype -/

theorem mkAmount_ty (ty : AmountTy) (x : PyNum) (r : AmountV) :
    mkAmount ty x = .ok r → r.ty = ty := by
  cases ty with
  | lovelace =>
    cases x with
    | int n =>
      intro h
      injection h with h2
      rw [← h2]
    | float q =>
      intro h
      cases h
  | ada =>
    intro h
    injection h with h2
    rw [← h2]

theorem finishAmount_ty (ty : AmountTy) (x : Except PyErr PyNum) (r : AmountV) :
    finishAmount ty x = .ok r → r.ty = ty := by
  cases x with
  | error e =>
    intro h
    cases h
  | ok y => exact mkAmount_ty ty y r

theorem pyDiv_ok_float (a b : PyNum) (y : PyNum) :
    pyDiv a b = .ok y → ∃ q, y = .float q := by
  unfold pyDiv
  by_cases hz : b.toQ = 0
  · rw [if_pos hz]
    intro h
    cases h
  · rw [if_neg hz]
    intro h
    injection h with h2
    exact ⟨_, h2.symm⟩

/-- Claim C8 (amended): every binary dunder that returns does return an
instance of the left operand's concrete subtype, and every unary dunder
returns an instance of `self`'s subtype; but true division with a
`Lovelace` left operand never returns — its float result is rejected by
`Lovelace.__init__` with a `TypeError` (or the division itself raises). -/
theorem c8_subtype_preservation :
    (∀ (k : BinOpK) (self : AmountV) (rhs : Operand) (r : AmountV),
      applyBin k self rhs = .ok r → r.ty = self.ty) ∧
    (∀ (k : UnOpK) (self : AmountV), ∃ r, applyUn k self = .ok r ∧ r.ty = self.ty) ∧
    (∀ (self : AmountV) (rhs : Operand) (r : AmountV), self.ty = .lovelace →
      applyBin .truediv self rhs ≠ .ok r) := by
  refine ⟨?_, ?_, ?_⟩
  · intro k self rhs r h
    cases rhs with
    | num x => exact finishAmount_ty _ _ _ h
    | amt o =>
      cases k <;> simp only [applyBin] at h <;>
        first
        | exact finishAmount_ty _ _ _ h
        | cases h
    | other => cases h
  · intro k self
    cases self with
    | mk ty amt =>
      cases ty <;> cases k <;> exact ⟨_, rfl, rfl⟩
  · intro self rhs r hty h
    cases self with
    | mk ty amt =>
      cases hty
      cases rhs with
      | num x =>
        simp only [applyBin] at h
        cases hd : binOpNum .truediv (AmountV.amount ⟨.lovelace, amt⟩) x with
        | error e =>
          rw [hd] at h
          cases h
        | ok y =>
          obtain ⟨q, hq⟩ := pyDiv_ok_float _ _ _ hd
          rw [hd, hq] at h
          cases h
      | amt o =>
        simp only [applyBin] at h
        cases hd : binOpNum .truediv (AmountV.amount ⟨.lovelace, amt⟩)
            (o.dictLookup AmountTy.lovelace) with
        | error e =>
          rw [hd] at h
          cases h
        | ok y =>
          obtain ⟨q, hq⟩ := pyDiv_ok_float _ _ _ hd
          rw [hd, hq] at h
          cases h
      | other => cases h

/-- Witness for C8: `Ada + int` returns an `Ada`, and `Lovelace / int`
returns nothing at a concrete input. -/
theorem c8_witness :
    (⟨AmountTy.ada, PyNum.int 3⟩ : AmountV).ty = AmountTy.ada ∧
    applyBin BinOpK.truediv ⟨AmountTy.lovelace, PyNum.int 2⟩
      (Operand.num (PyNum.int 2)) ≠ .ok ⟨AmountTy.lovelace, PyNum.int 1⟩ :=
  ⟨c8_subtype_preservation.1 .add ⟨.ada, .int 1⟩ (.num (.int 2)) ⟨.ada, .int 3⟩
      (by decide),
    c8_subtype_preservation.2.2 ⟨.lovelace, .int 2⟩ (.num (.int 2))
      ⟨.lovelace, .int 1⟩ rfl⟩

/-- Claim C8, as stated, is false: `Lovelace(2) / 2` raises `TypeError`
instead of returning a new `Lovelace` — Python true division produces a
float, which `Lovelace.__init__` rejects. -/
theorem c8_counterexample :
    applyBin BinOpK.truediv ⟨AmountTy.lovelace, PyNum.int 2⟩
      (Operand.num (PyNum.int 2)) = .error PyErr.typeError := by
  decide

/-! ## C10: burn_tokens mutates the caller's tokens in place -/

/-- Claim C10: `burn_tokens` rewrites every token's amount to
`-abs(amount)` before composing, the very same mutated objects are passed
on as `mints` and as the change output's tokens, and the caller's view
after the call is the mutated one — positive amounts become burns. -/
theorem c10_burn_in_place (tokens : List Token) :
    (burn_tokens tokens).callerTokens =
      tokens.map (fun t => { t with amount := -|t.amount| }) ∧
    (burn_tokens tokens).mints = (burn_tokens tokens).callerTokens ∧
    (burn_tokens tokens).outputTokens = (burn_tokens tokens).callerTokens ∧
    (∀ t ∈ (burn_tokens tokens).mints, t.amount ≤ 0) ∧
    ∀ (i : Nat) (h : i < tokens.length)
      (h2 : i < (burn_tokens tokens).mints.length),
      ((burn_tokens tokens).mints.get ⟨i, h2⟩).amount =
        -|(tokens.get ⟨i, h⟩).amount| ∧
      ((burn_tokens tokens).mints.get ⟨i, h2⟩).policyId =
        (tokens.get ⟨i, h⟩).policyId ∧
      ((burn_tokens tokens).mints.get ⟨i, h2⟩).name = (tokens.get ⟨i, h⟩).name := by
  refine ⟨rfl, rfl, rfl, ?_, ?_⟩
  · intro t ht
    simp only [burn_tokens, List.mem_map] at ht
    obtain ⟨t0, _, he⟩ := ht
    rw [← he]
    exact neg_nonpos.mpr (abs_nonneg _)
  · intro i h h2
    have hget : (burn_tokens tokens).mints.get ⟨i, h2⟩ =
        (fun t => { t with amount := -|t.amount| }) (tokens.get ⟨i, h⟩) := by
      simp [burn_tokens, List.get_map]
    rw [hget]
    exact ⟨rfl, rfl, rfl⟩

/-- Witness for C10: a token of amount 5 is turned into a burn of 5,
visible in the caller's token list. -/
theorem c10_witness :
    ((burn_tokens [⟨0, [97], 5⟩]).mints.get ⟨0, by decide⟩).amount = -|(5 : Int)| ∧
    ∀ t ∈ (burn_tokens [⟨0, [97], 5⟩]).mints, t.amount ≤ 0 :=
  ⟨((c10_burn_in_place [⟨0, [97], 5⟩]).2.2.2.2 0 (by decide) (by decide)).1,
    (c10_burn_in_place [⟨0, [97], 5⟩]).2.2.2.1⟩

end PyCardano
